import Mathlib

/-!
Verification of the adaptive batching upsert scheduler
(`crates/indexer/src/search/client.rs`).

The Rust code is shallowly embedded as pure Lean functions:

* `UpsertTimingDatapoint` and its reversed comparison `dpCmp` mirror the
  struct and its `Ord` impl (source lines 41-59).
* The `BinaryHeap<UpsertTimingDatapoint>` is modelled as `TimingSet`, the
  heap's multiset of elements kept as a list sorted greatest-first with
  respect to `dpCmp`; `peek` is the head, `pop` drops the head, and `push`
  is ordered insertion.  Since `dpCmp` compares all fields, elements that
  compare equal are equal, so this canonical representation is faithful to
  the heap's observable behaviour (`peek`, `pop`, `len`, iteration up to
  reordering).
* Machine integers (`usize`, `u64`, nanosecond counts) become `Nat`;
  `i128` timestamps become `Int`.  `DateTime<Utc>` and `Duration` are
  represented as nanosecond counts.
* Fallible paths are `Option`/`Except`; the async loop of
  `try_run_upserts` becomes a step function `loopBody` over an explicit
  event alphabet plus a driver `runLoop` over finite event traces.
-/

namespace Indexer

/-- Opaque document payload (`super::Document`). -/
abbrev Doc := Nat

/-- One timing sample (source lines 41-45): `finished_at` is a
`DateTime<Utc>` represented as nanoseconds since the Unix epoch,
`duration` is a `std::time::Duration` in nanoseconds. -/
structure UpsertTimingDatapoint where
  finished_at : Int
  duration : Nat
deriving DecidableEq

/-- Total comparison on `Int`, mirroring `Ord::cmp` on `DateTime`. -/
def cmpInt (a b : Int) : Ordering :=
  if a < b then Ordering.lt else if a = b then Ordering.eq else Ordering.gt

/-- Total comparison on `Nat`, mirroring `Ord::cmp` on `Duration`. -/
def cmpNat (a b : Nat) : Ordering :=
  if a < b then Ordering.lt else if a = b then Ordering.eq else Ordering.gt

/-- Rust's `Ordering::then`, written with explicit constructor cases. -/
def orderingThen : Ordering → Ordering → Ordering
  | Ordering.lt, _ => Ordering.lt
  | Ordering.eq, o => o
  | Ordering.gt, _ => Ordering.gt

/-- Embedding of `UpsertTimingDatapoint::cmp` (source lines 47-53):
`rhs.finished_at.cmp(&self.finished_at).then_with(|| rhs.duration.cmp(&self.duration))`.
The comparison is deliberately reversed so that the max-heap behaves as a
min-heap on `(finished_at, duration)`. -/
def dpCmp (self rhs : UpsertTimingDatapoint) : Ordering :=
  orderingThen (cmpInt rhs.finished_at self.finished_at)
    (cmpNat rhs.duration self.duration)

/-- The (non-strict) order induced by `dpCmp`: `dpGE a b` holds when the
heap considers `a` at least as large as `b`. -/
def dpGE (a b : UpsertTimingDatapoint) : Prop := dpCmp a b ≠ Ordering.lt

instance : DecidableRel dpGE := fun a b => by
  unfold dpGE; exact inferInstance

/-- Because the comparison is reversed, "heap-greater" means smaller
`finished_at`, with smaller `duration` as tiebreak. -/
theorem dpGE_iff (a b : UpsertTimingDatapoint) :
    dpGE a b ↔ (a.finished_at < b.finished_at ∨
      (a.finished_at = b.finished_at ∧ a.duration ≤ b.duration)) := by
  unfold dpGE dpCmp cmpInt cmpNat
  split_ifs <;> simp [orderingThen] <;> omega

instance : IsTotal UpsertTimingDatapoint dpGE :=
  ⟨fun a b => by rw [dpGE_iff, dpGE_iff]; omega⟩

instance : IsTrans UpsertTimingDatapoint dpGE :=
  ⟨fun a b c hab hbc => by
    rw [dpGE_iff] at hab hbc ⊢; omega⟩

instance : IsAntisymm UpsertTimingDatapoint dpGE :=
  ⟨fun a b hab hba => by
    rw [dpGE_iff] at hab hba
    cases a
    cases b
    simp only [UpsertTimingDatapoint.mk.injEq]
    simp only at hab hba
    omega⟩

/-- Model of `BinaryHeap<UpsertTimingDatapoint>`: the heap's contents as a
list sorted greatest-first with respect to `dpCmp` (equivalently: oldest
`finished_at` first). -/
abbrev TimingSet := List UpsertTimingDatapoint

/-- `BinaryHeap::peek`: the greatest element w.r.t. the reversed order,
i.e. the datapoint with the smallest `finished_at`. -/
def peek (s : TimingSet) : Option UpsertTimingDatapoint := s.head?

/-- `BinaryHeap::pop` (element removal only): removes the greatest
element w.r.t. the reversed order. -/
def pop (s : TimingSet) : TimingSet := s.tail

/-- `BinaryHeap::push`: ordered insertion into the canonical sorted
representation. -/
def push (x : UpsertTimingDatapoint) (s : TimingSet) : TimingSet :=
  s.orderedInsert dpGE x

/-- The `while set.len() > sample_size { set.pop(); }` trim loop
(source lines 208-210). -/
def trimTo (sample_size : Nat) : TimingSet → TimingSet
  | [] => []
  | x :: xs =>
    if sample_size < (x :: xs).length then trimTo sample_size xs else x :: xs

/-- Details payload of a document-addition task
(`meilisearch::tasks::DocumentAddition`). -/
structure DocumentAddition where
  indexed_documents : Option Nat
deriving DecidableEq

/-- Kind of a completed task (`meilisearch::tasks::TaskType`): only the
document-addition kind is relevant; all other kinds are collapsed into
`otherKind`. -/
inductive TaskType where
  | documentAddition (details : Option DocumentAddition)
  | otherKind
deriving DecidableEq

/-- Payload of a finished task (`meilisearch::tasks::ProcessedTask`):
`duration` in nanoseconds, `finished_at` an `OffsetDateTime` as
nanoseconds since the Unix epoch (`unix_timestamp_nanos`). -/
structure ProcessedTask where
  duration : Nat
  finished_at : Int
  update_type : TaskType
deriving DecidableEq

/-- A task as returned by `meili.get_tasks()` (`meilisearch::tasks::Task`):
the source matches only `Task::Succeeded { content }` and discards every
other variant. -/
inductive MeiliTask where
  | succeeded (content : ProcessedTask)
  | failed (content : ProcessedTask)
  | enqueued
  | processing
deriving DecidableEq

/-- The timestamp round-trip of source lines 191-198:
`secs = nanos / 1_000_000_000` (truncating `i128` division),
`nsecs = nanos.rem_euclid(1_000_000_000)`, `secs.try_into::<i64>().ok()?`,
then `NaiveDateTime::from_timestamp_opt(secs, nsecs)?` reassembled into an
instant.  `nsecs` always fits in `u32`, so only the `i64` bound can fail;
chrono's narrower calendar-range check rejects only astronomically distant
instants and is subsumed here by the `i64` bound. -/
def dateTimeFromNanos (nanos : Int) : Option Int :=
  let secs := Int.tdiv nanos 1000000000
  let nsecs := Int.emod nanos 1000000000
  if secs < -(2 ^ 63) ∨ 2 ^ 63 ≤ secs then none
  else some (secs * 1000000000 + nsecs)

/-- The `filter_map` closure of source lines 168-204: keep a task only if
it succeeded, is a document addition whose details report an indexed
document count, that count is at least `batch_size / 2`, and the timestamp
conversion succeeds. -/
def acceptTask (batch_size : Nat) (task : MeiliTask) :
    Option UpsertTimingDatapoint :=
  match task with
  | MeiliTask.succeeded content =>
    match content.update_type with
    | TaskType.documentAddition (some details) =>
      match details.indexed_documents with
      | some count =>
        if batch_size / 2 ≤ count then
          match dateTimeFromNanos content.finished_at with
          | some fa => some ⟨fa, content.duration⟩
          | none => none
        else none
      | none => none
    | _ => none
  | _ => none

/-- Duration, in nanoseconds, of `Duration::from_secs(30)`: the fallback
interval when the window holds no samples. -/
def defaultIntervalNanos : Nat := 30 * 1000000000

/-- The percentile rank of source line 228:
`(times.len() as f64 * 0.75).round() as usize`.  For every list length
`n < 2 ^ 51`, `n as f64 * 0.75` is the exact rational `3 * n / 4` and
`f64::round` rounds half away from zero, so the result is exactly
`(3 * n + 2) / 4` in integer arithmetic. -/
def rank (n : Nat) : Nat := (3 * n + 2) / 4

/-- The interval-selection tail of `update_upsert_interval` (source lines
212-232): collect the stored durations, sort ascending
(`sort_unstable`), index at `rank`, fall back to index 0, fall back to the
30-second default. -/
def selectInterval (s : TimingSet) : Nat :=
  let times := (s.map (fun u => u.duration)).insertionSort (fun a b => a ≤ b)
  match times.get? (rank times.length) with
  | some d => d
  | none =>
    match times.get? 0 with
    | some d => d
    | none => defaultIntervalNanos

/-- The pure content of `Client::update_upsert_interval` (source lines
151-241), with the task list fetched by `meili.get_tasks()` passed in as
an argument (newest first, as the service returns it).  Returns the
updated timing window together with the selected interval. -/
def updateUpsertInterval (tasks : List MeiliTask) (set : TimingSet)
    (sample_size batch_size : Nat) : TimingSet × Nat :=
  let cutoff := (peek set).map (fun u => u.finished_at)
  let accepted :=
    (tasks.filterMap (acceptTask batch_size)).takeWhile
      (fun u =>
        match cutoff with
        | none => true
        | some c => decide (c < u.finished_at))
  let set1 := accepted.foldl (fun s u => push u s) set
  let set2 := trimTo sample_size set1
  (set2, selectInterval set2)

/-- State of the capacity-1 trigger channel
(`mpsc::channel(1)` from source line 97): `pending` records whether an
unconsumed signal sits in the slot, `closed` whether the receiving side is
gone. -/
structure TriggerState where
  closed : Bool
  pending : Bool
deriving DecidableEq

/-- Outcome classes of `mpsc::Sender::try_send` on the trigger channel. -/
inductive TrySendFailure where
  | full
  | closed
deriving DecidableEq

/-- `trigger_upsert.try_send(())` (source line 374): fails with `Closed`
if the channel is closed, with `Full` if a signal is already pending, and
otherwise deposits the signal. -/
def trySend (t : TriggerState) : TriggerState × Option TrySendFailure :=
  if t.closed then (t, some TrySendFailure.closed)
  else if t.pending then (t, some TrySendFailure.full)
  else (⟨t.closed, true⟩, none)

/-- The producer-visible state of `Client` (source lines 63-69): the
batch threshold, the pending queue (front of the list = oldest entry, the
end where `SegQueue::pop` takes from is the head), and the trigger
channel.  The queue holds `(index_name, document)` pairs. -/
structure ClientState where
  upsert_batch : Nat
  upsert_queue : List (String × Doc)
  trigger_upsert : TriggerState
deriving DecidableEq

/-- `Client::upsert_documents` (source lines 363-382): push
`(idx, doc)` for every document in order, then, if the queue length
reached `upsert_batch`, try to fire the trigger; `Ok` and `Full` are
success, `Closed` is the only error and is returned to the caller. -/
def upsert_documents (st : ClientState) (idx : String) (docs : List Doc) :
    ClientState × Except Unit Unit :=
  let q := st.upsert_queue ++ docs.map (fun d => (idx, d))
  if st.upsert_batch ≤ q.length then
    match trySend st.trigger_upsert with
    | (t2, none) => (⟨st.upsert_batch, q, t2⟩, Except.ok ())
    | (t2, some TrySendFailure.full) => (⟨st.upsert_batch, q, t2⟩, Except.ok ())
    | (t2, some TrySendFailure.closed) => (⟨st.upsert_batch, q, t2⟩, Except.error ())
  else (⟨st.upsert_batch, q, st.trigger_upsert⟩, Except.ok ())

/-- One step of the `fold` of source lines 310-314: append the document
to the entry of its index (first match), or open a new group at the end. -/
def insertGroup : List (String × List Doc) → String → Doc → List (String × List Doc)
  | [], i, d => [(i, [d])]
  | g :: gs, i, d =>
    if g.1 == i then (g.1, g.2 ++ [d]) :: gs else g :: insertGroup gs i d

/-- The grouping of drained queue entries by index name (source lines
310-314): `SegQueue::pop` yields entries in FIFO order, and each document
is appended to its index's vector.  The `HashMap` is modelled as an
association list with unique keys; its iteration order is irrelevant to
the claims (dispatch across indices is unordered). -/
def groupByIndex (q : List (String × Doc)) : List (String × List Doc) :=
  q.foldl (fun h p => insertGroup h p.1 p.2) []

/-- Lookup of one index's group in the dispatch map (empty list when the
index received no documents this tick). -/
def groupLookup (gs : List (String × List Doc)) (idx : String) : List Doc :=
  match gs.find? (fun g => g.1 == idx) with
  | some g => g.2
  | none => []

/-- The three-way `tokio::select!` of source lines 276-280, as an event
alphabet: `rx` is a received trigger signal (`Rx(Some(()))`), `rxClosed`
a closed trigger source (`Rx(None)`), `stopSignal` the stop oneshot
firing (`Stop(Ok(()))`), `stopErr` an errored stop channel
(`Stop(Err(_))`), and `tick` the interval timer elapsing. -/
inductive Event where
  | rx
  | rxClosed
  | stopSignal
  | stopErr
  | tick
deriving DecidableEq

/-- The stop-reason classification of source lines 282-291. -/
def stopReason : Event → Option String
  | Event.rx => none
  | Event.tick => none
  | Event.rxClosed => some "trigger event source closed"
  | Event.stopSignal => some "stop signal received"
  | Event.stopErr => some "error occurred reading stop signal"

/-- Loop-carried state of one `try_run_upserts` execution: the pending
queue and the timing window. -/
structure TickState where
  queue : List (String × Doc)
  timing : TimingSet
deriving DecidableEq

/-- How one loop iteration ends: continue looping, break cleanly after a
stop reason, or propagate a dispatch error out of `try_run_upserts`. -/
inductive TickOutcome where
  | cont
  | halt
  | failed
deriving DecidableEq

/-- Result of one iteration of the loop of source lines 265-341:
the successor state, the freshly recomputed interval, the groups handed
to the dispatch phase (`none` on a no-op tick), the network upsert calls
actually issued, and how the iteration ended. -/
structure TickResult where
  state : TickState
  interval : Nat
  dispatched : Option (List (String × List Doc))
  netCalls : List (String × List Doc)
  outcome : TickOutcome
deriving DecidableEq

/-- Whether every `add_or_replace` call of this tick succeeded, `net`
being the downstream service's response to each per-index call.  All
calls are issued before the results are joined
(`FuturesUnordered`, source lines 316-336); the first failure fails the
tick. -/
def dispatchOk (net : String → List Doc → Except Unit Unit)
    (groups : List (String × List Doc)) : Bool :=
  groups.all (fun g =>
    match net g.1 g.2 with
    | Except.ok _ => true
    | Except.error _ => false)

/-- One iteration of the scheduler loop (source lines 265-341): recompute
the interval from the timing window, classify the awaited event, skip the
drain when there is no stop reason and the queue is empty, otherwise swap
the queue out, group it by index, and dispatch — in dry-run mode by
logging only, otherwise by one network call per index.  The iteration
breaks exactly when a stop reason was set, and fails when a network call
failed. -/
def loopBody (sample_size batch_size : Nat) (dry_run : Bool)
    (net : String → List Doc → Except Unit Unit)
    (tasks : List MeiliTask) (st : TickState) (e : Event) : TickResult :=
  let ui := updateUpsertInterval tasks st.timing sample_size batch_size
  let sr := stopReason e
  if sr = none ∧ st.queue = [] then
    ⟨⟨st.queue, ui.1⟩, ui.2, none, [], TickOutcome.cont⟩
  else
    let groups := groupByIndex st.queue
    let calls := if dry_run then [] else groups
    let ok := dry_run || dispatchOk net groups
    ⟨⟨[], ui.1⟩, ui.2, some groups, calls,
      if ok then
        (if sr = none then TickOutcome.cont else TickOutcome.halt)
      else TickOutcome.failed⟩

/-- How a full run of the loop ends on a finite event trace. -/
inductive RunResult where
  | halted
  | crashed
  | outOfEvents
deriving DecidableEq

/-- Driver for `loopBody` over a finite trace of select outcomes:
iterates until the loop breaks (`halted`), a tick errors (`crashed`), or
the trace is exhausted (`outOfEvents`, a model artifact standing for the
loop still waiting).  Returns the dispatched batches in order, the final
state, and the terminal tag. -/
def runLoop (sample_size batch_size : Nat) (dry_run : Bool)
    (net : String → List Doc → Except Unit Unit) (tasks : List MeiliTask) :
    TickState → List Event →
      List (List (String × List Doc)) × TickState × RunResult
  | st, [] => ([], st, RunResult.outOfEvents)
  | st, e :: es =>
    let r := loopBody sample_size batch_size dry_run net tasks st e
    match r.outcome with
    | TickOutcome.halt => (r.dispatched.toList, r.state, RunResult.halted)
    | TickOutcome.failed => (r.dispatched.toList, r.state, RunResult.crashed)
    | TickOutcome.cont =>
      let rest := runLoop sample_size batch_size dry_run net tasks r.state es
      (r.dispatched.toList ++ rest.1, rest.2)

/-- Error classes surfaced by one `try_run_upserts` execution:
`reentrancy` is the `try_lock` failure of source lines 258-261
("Deadlock detected on upsert timing set"), `downstream` a failed
Meilisearch API call (source line 335). -/
inductive UpsertError where
  | reentrancy
  | downstream
deriving DecidableEq

/-- `Client::try_run_upserts` (source lines 243-351): the non-blocking
`try_lock` on the timing set is taken first and fails immediately with
the reentrancy error when the lock is already held (`locked`), touching
nothing; otherwise the loop runs over the event trace. -/
def tryRunUpserts (locked : Bool) (sample_size batch_size : Nat)
    (dry_run : Bool) (net : String → List Doc → Except Unit Unit)
    (tasks : List MeiliTask) (st : TickState) (es : List Event) :
    Except UpsertError
      (List (List (String × List Doc)) × TickState × RunResult) :=
  if locked then Except.error UpsertError.reentrancy
  else
    let r := runLoop sample_size batch_size dry_run net tasks st es
    match r.2.2 with
    | RunResult.crashed => Except.error UpsertError.downstream
    | _ => Except.ok r

/-- The supervisor decision of `Client::run_upserts` (source lines
129-148): `Ok` breaks the restart loop, any `Err` is logged and the loop
body is retried after a fixed 5-second sleep.  Returns `true` when the
supervisor retries. -/
def supervisorRetries {α : Type} (r : Except UpsertError α) : Bool :=
  match r with
  | Except.ok _ => false
  | Except.error _ => true

instance {ε α : Type} [DecidableEq ε] [DecidableEq α] :
    DecidableEq (Except ε α) := fun a b =>
  match a, b with
  | Except.ok x, Except.ok y =>
    if h : x = y then isTrue (by rw [h]) else isFalse (by simp [h])
  | Except.error x, Except.error y =>
    if h : x = y then isTrue (by rw [h]) else isFalse (by simp [h])
  | Except.ok _, Except.error _ => isFalse (by simp)
  | Except.error _, Except.ok _ => isFalse (by simp)

/-- Why `get_index` failed: the index may be missing, or the call may
fail for any other reason (transport error, auth, ...).  The source
(line 386) matches `if let Ok(idx)`, so every error takes the creation
branch. -/
inductive GetIndexError where
  | notFound
  | otherError
deriving DecidableEq

/-- The part of an index handle that `create_index` consults: the
outcome of `idx.get_primary_key()`. -/
structure IndexHandle where
  primary_key_result : Except Unit (Option String)
deriving DecidableEq

/-- Downstream responses consumed by one `create_index` call for a fixed
index name. -/
structure BootstrapEnv where
  get_index : Except GetIndexError IndexHandle
  create_result : Except Unit Unit
deriving DecidableEq

/-- Error classes of the bootstrap check. -/
inductive BootstrapError where
  | primaryKeyCheckFailed
  | primaryKeyMismatch
  | createFailed
deriving DecidableEq

/-- The free function `create_index` (source lines 385-401).  If
`get_index` succeeds, the primary key is fetched and checked via
`map_or(false, |k| k == primary_key)` — so a missing key fails the
`ensure!` exactly like a differing key; on any `get_index` error the
index is created and the creation task awaited.  The boolean records
whether the creation branch was taken. -/
def create_index (env : BootstrapEnv) (primary_key : String) :
    Except BootstrapError Unit × Bool :=
  match env.get_index with
  | Except.ok idx =>
    (match idx.primary_key_result with
     | Except.error _ => (Except.error BootstrapError.primaryKeyCheckFailed, false)
     | Except.ok (some k) =>
       if k = primary_key then (Except.ok (), false)
       else (Except.error BootstrapError.primaryKeyMismatch, false)
     | Except.ok none => (Except.error BootstrapError.primaryKeyMismatch, false))
  | Except.error _ =>
    (match env.create_result with
     | Except.ok _ => (Except.ok (), true)
     | Except.error _ => (Except.error BootstrapError.createFailed, true))

/-! ### Helper lemmas about the timing window -/

/-- Building a window by pushing each sample of a list in order, starting
from a given heap state. -/
def pushAll (l : List UpsertTimingDatapoint) (s : TimingSet) : TimingSet :=
  l.foldl (fun acc x => push x acc) s

/-- Building a window from scratch. -/
def buildWindow (l : List UpsertTimingDatapoint) : TimingSet := pushAll l []

theorem push_sorted {s : TimingSet} (h : List.Sorted dpGE s)
    (x : UpsertTimingDatapoint) : List.Sorted dpGE (push x s) :=
  List.Sorted.orderedInsert x s h

theorem push_perm (x : UpsertTimingDatapoint) (s : TimingSet) :
    List.Perm (push x s) (x :: s) :=
  List.perm_orderedInsert dpGE x s

theorem pushAll_sorted (l : List UpsertTimingDatapoint) {s : TimingSet}
    (h : List.Sorted dpGE s) : List.Sorted dpGE (pushAll l s) := by
  induction l generalizing s with
  | nil => exact h
  | cons x xs ih => exact ih (push_sorted h x)

theorem pushAll_perm (l : List UpsertTimingDatapoint) (s : TimingSet) :
    List.Perm (pushAll l s) (l ++ s) := by
  induction l generalizing s with
  | nil => exact List.Perm.refl s
  | cons x xs ih =>
    have h1 : List.Perm (pushAll xs (push x s)) (xs ++ push x s) := ih (push x s)
    have h2 : List.Perm (xs ++ push x s) (xs ++ x :: s) :=
      List.Perm.append_left xs (push_perm x s)
    have h3 : List.Perm (xs ++ x :: s) (x :: (xs ++ s)) :=
      List.perm_middle
    exact (h1.trans h2).trans h3

theorem buildWindow_sorted (l : List UpsertTimingDatapoint) :
    List.Sorted dpGE (buildWindow l) :=
  pushAll_sorted l List.sorted_nil

theorem buildWindow_perm (l : List UpsertTimingDatapoint) :
    List.Perm (buildWindow l) l := by
  have h := pushAll_perm l []
  simpa [buildWindow] using h

theorem buildWindow_perm_eq {l l2 : List UpsertTimingDatapoint}
    (h : List.Perm l l2) : buildWindow l2 = buildWindow l :=
  List.eq_of_perm_of_sorted
    ((buildWindow_perm l2).trans (h.symm.trans (buildWindow_perm l).symm))
    (buildWindow_sorted l2) (buildWindow_sorted l)

theorem trimTo_eq_drop (k : Nat) (s : TimingSet) :
    trimTo k s = s.drop (s.length - k) := by
  induction s with
  | nil => simp [trimTo]
  | cons x xs ih =>
    by_cases h : k < (x :: xs).length
    · have hk : k ≤ xs.length := by
        simpa [Nat.lt_succ_iff] using h
      have hlen : (x :: xs).length - k = (xs.length - k) + 1 := by
        simp only [List.length_cons]
        omega
      simp only [trimTo, if_pos h, ih, hlen, List.drop_succ_cons]
    · have hk : (x :: xs).length ≤ k := Nat.le_of_not_lt h
      have hlen : (x :: xs).length - k = 0 := Nat.sub_eq_zero_of_le hk
      simp only [trimTo, if_neg h, hlen, List.drop_zero]

/-! ### The interval selection, restated in the spec's words -/

/-- Modelled from the spec (§4.2 "Interval selection"), for refinement
comparison with `selectInterval`: collect all stored durations, sort
ascending, pick the element at rank `round(0.75 × count)`; if that index
is out of range fall back to the smallest duration; if the window is
empty, fall back to the fixed 30-second default. -/
def selectIntervalSpec (s : TimingSet) : Nat :=
  let times := (s.map (fun u => u.duration)).mergeSort (fun a b => decide (a ≤ b))
  if h : rank times.length < times.length then times.get ⟨rank times.length, h⟩
  else
    match times.min? with
    | some m => m
    | none => defaultIntervalNanos

instance : IsTotal Nat (fun a b : Nat => a ≤ b) := ⟨Nat.le_total⟩

instance : IsTrans Nat (fun a b : Nat => a ≤ b) :=
  ⟨fun _ _ _ => Nat.le_trans⟩

instance : IsAntisymm Nat (fun a b : Nat => a ≤ b) :=
  ⟨fun _ _ => Nat.le_antisymm⟩

theorem sorted_min_eq_head {l : List Nat}
    (h : List.Sorted (fun a b => a ≤ b) l) : l.min? = l.head? := by
  cases l with
  | nil => rfl
  | cons a t =>
    have ha := List.rel_of_sorted_cons h
    rw [List.min?_cons, List.head?_cons]
    cases hm : t.min? with
    | none => rfl
    | some m =>
      have hmem : m ∈ t :=
        List.min?_mem (fun x y => by rw [Nat.min_def]; split <;> simp) hm
      have hle : a ≤ m := ha m hmem
      have : min a m = a := by omega
      simp [this]

theorem mergeSort_sorted_le (l : List Nat) :
    List.Sorted (fun a b : Nat => a ≤ b)
      (l.mergeSort (fun a b => decide (a ≤ b))) := by
  have h : (l.mergeSort (fun a b => decide (a ≤ b))).Pairwise
      (fun a b => decide (a ≤ b) = true) :=
    List.sorted_mergeSort
      (fun a b c hab hbc => by
        simp only [decide_eq_true_eq] at hab hbc ⊢
        exact Nat.le_trans hab hbc)
      (fun a b => by
        simp only [Bool.or_eq_true, decide_eq_true_eq]
        exact Nat.le_total a b) l
  exact h.imp (fun hab => by simpa using hab)

theorem insertionSort_eq_mergeSort (l : List Nat) :
    l.insertionSort (fun a b => a ≤ b) =
      l.mergeSort (fun a b => decide (a ≤ b)) := by
  have hperm : List.Perm (l.insertionSort (fun a b => a ≤ b))
      (l.mergeSort (fun a b => decide (a ≤ b))) :=
    (List.perm_insertionSort _ l).trans (List.mergeSort_perm l _).symm
  have h1 : List.Sorted (fun a b : Nat => a ≤ b)
      (l.insertionSort (fun a b => a ≤ b)) :=
    List.sorted_insertionSort _ l
  exact List.eq_of_perm_of_sorted hperm h1 (mergeSort_sorted_le l)

theorem selectInterval_eq_spec (s : TimingSet) :
    selectInterval s = selectIntervalSpec s := by
  unfold selectInterval selectIntervalSpec
  simp only [insertionSort_eq_mergeSort]
  set ts := (s.map (fun u => u.duration)).mergeSort (fun a b => decide (a ≤ b))
    with hts
  have hsorted : List.Sorted (fun a b : Nat => a ≤ b) ts :=
    mergeSort_sorted_le (s.map (fun u => u.duration))
  by_cases h : rank ts.length < ts.length
  · rw [List.get?_eq_get h, dif_pos h]
  · rw [List.get?_eq_none.mpr (Nat.le_of_not_lt h), dif_neg h]
    rw [sorted_min_eq_head hsorted]
    cases ts with
    | nil => rfl
    | cons a t => rfl

/-! ### Helper lemmas about grouping -/

theorem groupLookup_nil (idx : String) : groupLookup [] idx = [] := by
  simp [groupLookup, List.find?]

theorem groupLookup_cons (g : String × List Doc)
    (gs : List (String × List Doc)) (idx : String) :
    groupLookup (g :: gs) idx =
      if (g.1 == idx) = true then g.2 else groupLookup gs idx := by
  by_cases h : (g.1 == idx) = true
  · simp [groupLookup, List.find?, h]
  · simp only [Bool.not_eq_true] at h
    simp [groupLookup, List.find?, h]

theorem groupLookup_insertGroup (gs : List (String × List Doc))
    (i : String) (d : Doc) (idx : String) :
    groupLookup (insertGroup gs i d) idx =
      groupLookup gs idx ++ (if i == idx then [d] else []) := by
  induction gs with
  | nil =>
    by_cases h : i = idx
    · simp [insertGroup, groupLookup_cons, groupLookup_nil, beq_iff_eq, h]
    · have hb : (i == idx) = false := beq_eq_false_iff_ne.mpr h
      simp [insertGroup, groupLookup_cons, groupLookup_nil, hb]
  | cons g gs ih =>
    by_cases hgi : g.1 = i
    · have hgib : (g.1 == i) = true := beq_iff_eq.mpr hgi
      by_cases hgx : g.1 = idx
      · have hix : (i == idx) = true := beq_iff_eq.mpr (hgi ▸ hgx)
        have hgxb : (g.1 == idx) = true := beq_iff_eq.mpr hgx
        simp [insertGroup, hgib, groupLookup_cons, hgxb, hix]
      · have hix : (i == idx) = false :=
          beq_eq_false_iff_ne.mpr (fun h => hgx (hgi.trans h))
        have hgxb : (g.1 == idx) = false := beq_eq_false_iff_ne.mpr hgx
        simp [insertGroup, hgib, groupLookup_cons, hgxb, hix]
    · have hgib : (g.1 == i) = false := beq_eq_false_iff_ne.mpr hgi
      by_cases hgx : g.1 = idx
      · have hix : (i == idx) = false :=
          beq_eq_false_iff_ne.mpr (fun h => hgi (hgx.trans h.symm))
        have hgxb : (g.1 == idx) = true := beq_iff_eq.mpr hgx
        simp [insertGroup, hgib, groupLookup_cons, hgxb, hix]
      · have hgxb : (g.1 == idx) = false := beq_eq_false_iff_ne.mpr hgx
        simp [insertGroup, hgib, groupLookup_cons, hgxb, ih]

theorem groupLookup_foldl (q : List (String × Doc))
    (acc : List (String × List Doc)) (idx : String) :
    groupLookup (q.foldl (fun h p => insertGroup h p.1 p.2) acc) idx =
      groupLookup acc idx ++
        (q.filter (fun p => p.1 == idx)).map Prod.snd := by
  induction q generalizing acc with
  | nil => simp
  | cons p q ih =>
    by_cases h : p.1 = idx
    · simp [ih, groupLookup_insertGroup, h, List.filter_cons]
    · simp [ih, groupLookup_insertGroup, h, List.filter_cons]

theorem groupLookup_groupByIndex (q : List (String × Doc)) (idx : String) :
    groupLookup (groupByIndex q) idx =
      (q.filter (fun p => p.1 == idx)).map Prod.snd := by
  have h := groupLookup_foldl q [] idx
  simpa [groupByIndex, groupLookup] using h

/-! ### Claim theorems -/

/-- A four-sample window whose durations are 10, 20, 30 and 40
milliseconds (in nanoseconds), with distinct timestamps. -/
def demoWindow : TimingSet :=
  [⟨1, 10000000⟩, ⟨2, 20000000⟩, ⟨3, 30000000⟩, ⟨4, 40000000⟩]

/-- C1: for every state of the timing window (and every task list),
`update_upsert_interval` returns exactly the spec's selection — sort the
stored durations ascending, pick index `round(0.75 × count)`
(= `(3n + 2) / 4`), fall back to the smallest duration when that index is
out of range, and to the 30-second default when the window is empty.  In
particular for durations `[10, 20, 30, 40]` ms the selected interval is
40 ms. -/
theorem upsert_interval_selection :
    (∀ (tasks : List MeiliTask) (set : TimingSet) (sample_size batch_size : Nat),
        (updateUpsertInterval tasks set sample_size batch_size).2 =
          selectIntervalSpec
            (updateUpsertInterval tasks set sample_size batch_size).1)
    ∧ (updateUpsertInterval [] demoWindow 30 1000).2 = 40000000
    ∧ (updateUpsertInterval [] [] 30 1000).2 = defaultIntervalNanos
    ∧ rank 4 = 3 := by
  refine ⟨?_, by decide, by decide, by decide⟩
  intro tasks set sample_size batch_size
  exact selectInterval_eq_spec
    ((updateUpsertInterval tasks set sample_size batch_size).1)

/-- An unchanged downstream task list, newest first: two successful
document additions with 10 indexed documents each, finishing at
nanosecond instants 2 and 1. -/
def dedupTasks : List MeiliTask :=
  [MeiliTask.succeeded ⟨1000, 2, TaskType.documentAddition (some ⟨some 10⟩)⟩,
   MeiliTask.succeeded ⟨1000, 1, TaskType.documentAddition (some ⟨some 10⟩)⟩]

/-- C2 is refuted by the code: the cutoff is `set.peek()`, and because
the datapoint ordering is reversed, `peek` yields the OLDEST entry of the
window, not the newest.  Running the refresh twice against the unchanged
two-job list therefore re-inserts the newer job (`finished_at = 2`),
which then sits in the window twice — the refresh is not idempotent and
the job is double-counted.  (First refresh: window
`[⟨1,1000⟩, ⟨2,1000⟩]`; second refresh: window
`[⟨1,1000⟩, ⟨2,1000⟩, ⟨2,1000⟩]`.) -/
theorem refresh_double_counts :
    (updateUpsertInterval dedupTasks [] 30 4).1 = [⟨1, 1000⟩, ⟨2, 1000⟩]
    ∧ (updateUpsertInterval dedupTasks
        (updateUpsertInterval dedupTasks [] 30 4).1 30 4).1 =
        [⟨1, 1000⟩, ⟨2, 1000⟩, ⟨2, 1000⟩] := by
  constructor <;> decide

/-- Three samples with pairwise-distinct timestamps, inserted out of
order. -/
def demoSamples : List UpsertTimingDatapoint :=
  [⟨2, 5⟩, ⟨1, 5⟩, ⟨3, 5⟩]

/-- C3: inserting samples with pairwise-distinct `finished_at` in any
order builds the same window; trimming to capacity `k < n` retains
exactly the `k` samples with the largest `finished_at` (the evicted
prefix and the retained suffix partition the window, and every evicted
timestamp is strictly below every retained one); and both `peek` and the
eviction step (`pop`) operate on the entry with the smallest
`finished_at` first. -/
theorem eviction_retains_most_recent (l : List UpsertTimingDatapoint)
    (k : Nat)
    (hdist : l.Pairwise (fun a b => a.finished_at ≠ b.finished_at))
    (hk : k < l.length) :
    (∀ l2, List.Perm l l2 → buildWindow l2 = buildWindow l)
    ∧ (trimTo k (buildWindow l)).length = k
    ∧ ((buildWindow l).take ((buildWindow l).length - k) ++
        trimTo k (buildWindow l) = buildWindow l)
    ∧ (∀ x ∈ (buildWindow l).take ((buildWindow l).length - k),
        ∀ y ∈ trimTo k (buildWindow l), x.finished_at < y.finished_at)
    ∧ (∀ m, peek (buildWindow l) = some m →
        buildWindow l = m :: pop (buildWindow l) ∧
          ∀ x ∈ buildWindow l, m.finished_at ≤ x.finished_at) := by
  have hw := buildWindow_sorted l
  have hlen : (buildWindow l).length = l.length :=
    (buildWindow_perm l).length_eq
  have hsplit : (buildWindow l).take ((buildWindow l).length - k) ++
      (buildWindow l).drop ((buildWindow l).length - k) = buildWindow l :=
    List.take_append_drop _ _
  refine ⟨fun l2 h => buildWindow_perm_eq h, ?_, ?_, ?_, ?_⟩
  · rw [trimTo_eq_drop, List.length_drop]
    omega
  · rw [trimTo_eq_drop]
    exact hsplit
  · rw [trimTo_eq_drop]
    have hpw : ((buildWindow l).take ((buildWindow l).length - k) ++
        (buildWindow l).drop ((buildWindow l).length - k)).Pairwise dpGE := by
      rw [hsplit]; exact hw
    have hge := (List.pairwise_append.mp hpw).2.2
    have hdw : (buildWindow l).Pairwise
        (fun a b => a.finished_at ≠ b.finished_at) :=
      ((buildWindow_perm l).pairwise_iff (fun h => h.symm)).mpr hdist
    have hdw2 : ((buildWindow l).take ((buildWindow l).length - k) ++
        (buildWindow l).drop ((buildWindow l).length - k)).Pairwise
        (fun a b => a.finished_at ≠ b.finished_at) := by
      rw [hsplit]; exact hdw
    have hne := (List.pairwise_append.mp hdw2).2.2
    intro x hx y hy
    have h1 := hge x hx y hy
    have h2 := hne x hx y hy
    rw [dpGE_iff] at h1
    omega
  · intro m hm
    cases hwl : buildWindow l with
    | nil => rw [hwl] at hm; exact absurd hm (by simp [peek])
    | cons a t =>
      rw [hwl] at hm
      have ham : a = m := by
        simpa [peek] using hm
      subst ham
      rw [hwl] at hw
      have hrel := List.rel_of_sorted_cons hw
      refine ⟨by simp [pop], ?_⟩
      intro x hx
      rcases List.mem_cons.mp hx with h | h
      · rw [h]
      · have := hrel x h
        rw [dpGE_iff] at this
        omega

/-- Witness for C3 at a concrete input: three samples with timestamps
2, 1, 3 trimmed to capacity 2. -/
theorem eviction_retains_most_recent_witness :
    (trimTo 2 (buildWindow demoSamples)).length = 2 :=
  (eviction_retains_most_recent demoSamples 2 (by decide) (by decide)).2.1

/-- C4: `upsert_documents` appends all documents to the queue; the
trigger ends up set exactly when it already was, or the post-push queue
length reached `upsert_batch` with the channel still open (a pending
signal counts as success); and the call errors exactly when the send was
attempted (length threshold reached) and the channel is closed. -/
theorem enqueue_trigger_contract (st : ClientState) (idx : String)
    (docs : List Doc) :
    (upsert_documents st idx docs).1.upsert_queue =
        st.upsert_queue ++ docs.map (fun d => (idx, d))
    ∧ ((upsert_documents st idx docs).2 = Except.error () ↔
        (st.upsert_batch ≤ st.upsert_queue.length + docs.length ∧
          st.trigger_upsert.closed = true))
    ∧ ((upsert_documents st idx docs).1.trigger_upsert.pending =
        (st.trigger_upsert.pending ||
          (decide (st.upsert_batch ≤ st.upsert_queue.length + docs.length) &&
            !st.trigger_upsert.closed)))
    ∧ (upsert_documents st idx docs).1.trigger_upsert.closed =
        st.trigger_upsert.closed
    ∧ (upsert_documents st idx docs).1.upsert_batch = st.upsert_batch := by
  have hlen : (st.upsert_queue ++ docs.map (fun d => (idx, d))).length =
      st.upsert_queue.length + docs.length := by simp
  by_cases hb : st.upsert_batch ≤ st.upsert_queue.length + docs.length
  · cases hcl : st.trigger_upsert.closed
    · cases hp : st.trigger_upsert.pending
      · simp [upsert_documents, trySend, hlen, hb, hcl, hp]
      · simp [upsert_documents, trySend, hlen, hb, hcl, hp]
    · simp [upsert_documents, trySend, hlen, hb, hcl]
  · simp [upsert_documents, trySend, hlen, hb]

/-- A downstream service that accepts every upsert call. -/
def okNet : String → List Doc → Except Unit Unit := fun _ _ => Except.ok ()

/-- C5: when the awaited event carries a stop reason (stop signal, stop
channel error, or trigger source closed), the loop performs exactly one
more drain-and-dispatch pass — dispatching the grouped queue even when it
is empty — and then terminates: the run over any continuation of the
trace halts right there with that single batch dispatched, every document
in the queue at that moment is part of the dispatched groups, and no
event without a stop reason can make the loop terminate. -/
theorem graceful_shutdown (sample_size batch_size : Nat) (dry_run : Bool)
    (net : String → List Doc → Except Unit Unit) (tasks : List MeiliTask)
    (st : TickState) (e : Event) (es : List Event)
    (hstop : stopReason e ≠ none)
    (hnet : ∀ i ds, net i ds = Except.ok ()) :
    (loopBody sample_size batch_size dry_run net tasks st e).dispatched =
        some (groupByIndex st.queue)
    ∧ (loopBody sample_size batch_size dry_run net tasks st e).outcome =
        TickOutcome.halt
    ∧ runLoop sample_size batch_size dry_run net tasks st (e :: es) =
        ([groupByIndex st.queue],
          ⟨[], (updateUpsertInterval tasks st.timing sample_size batch_size).1⟩,
          RunResult.halted)
    ∧ (∀ p ∈ st.queue, p.2 ∈ groupLookup (groupByIndex st.queue) p.1)
    ∧ (∀ e2, stopReason e2 = none →
        (loopBody sample_size batch_size dry_run net tasks st e2).outcome ≠
          TickOutcome.halt) := by
  have hda : dispatchOk net (groupByIndex st.queue) = true := by
    simp [dispatchOk, hnet]
  have hcond : ¬ (stopReason e = none ∧ st.queue = []) := fun h => hstop h.1
  refine ⟨?_, ?_, ?_, ?_, ?_⟩
  · simp [loopBody, hcond]
  · simp [loopBody, hcond, hda, hstop]
  · simp [runLoop, loopBody, hcond, hda, hstop]
  · intro p hp
    rw [groupLookup_groupByIndex]
    exact List.mem_map.mpr
      ⟨p, List.mem_filter.mpr ⟨hp, beq_iff_eq.mpr rfl⟩, rfl⟩
  · intro e2 h2
    by_cases hq : st.queue = []
    · simp [loopBody, h2, hq]
    · have hc2 : ¬ (stopReason e2 = none ∧ st.queue = []) := fun h => hq h.2
      simp only [loopBody, if_neg hc2, h2]
      by_cases hok : (dry_run || dispatchOk net (groupByIndex st.queue)) = true
      · simp [hok, hq]
      · simp [Bool.not_eq_true] at hok
        simp [hok, hq]

/-- Witness for C5 at a concrete input: one queued document, the stop
signal fires, one further event is never processed. -/
theorem graceful_shutdown_witness :
    runLoop 1 1 false okNet [] ⟨[("a", 7)], []⟩ [Event.stopSignal, Event.tick] =
      ([[("a", [7])]], ⟨[], []⟩, RunResult.halted) :=
  (graceful_shutdown 1 1 false okNet [] ⟨[("a", 7)], []⟩ Event.stopSignal
    [Event.tick] (by decide) (fun _ _ => rfl)).2.2.1

set_option linter.unnecessarySeqFocus false in
/-- C6: with `dry_run` set, a tick issues no network call, never ends in
the failed outcome, leaves the queue empty, and still refreshes the
timing window and the interval via `updateUpsertInterval` — for every
queue contents, event and downstream behaviour. -/
theorem dry_run_safety (sample_size batch_size : Nat)
    (net : String → List Doc → Except Unit Unit) (tasks : List MeiliTask)
    (st : TickState) (e : Event) :
    (loopBody sample_size batch_size true net tasks st e).netCalls = []
    ∧ (loopBody sample_size batch_size true net tasks st e).outcome ≠
        TickOutcome.failed
    ∧ (loopBody sample_size batch_size true net tasks st e).state.queue = []
    ∧ (loopBody sample_size batch_size true net tasks st e).state.timing =
        (updateUpsertInterval tasks st.timing sample_size batch_size).1
    ∧ (loopBody sample_size batch_size true net tasks st e).interval =
        (updateUpsertInterval tasks st.timing sample_size batch_size).2 := by
  by_cases hc : stopReason e = none ∧ st.queue = []
  · refine ⟨?_, ?_, ?_, ?_, ?_⟩ <;>
      simp [loopBody, hc, hc.1, hc.2]
  · refine ⟨?_, ?_, ?_, ?_, ?_⟩ <;>
      simp only [loopBody, if_neg hc, Bool.true_or, if_true] <;>
      first
      | rfl
      | (by_cases hsr : stopReason e = none <;> simp [hsr])

/-- C7 counterexample: the claim says the reentrancy error is fatal and
not retried, but the supervisor of `run_upserts` retries every error of
`try_run_upserts` after its fixed cool-down — including the reentrancy
one. -/
theorem reentrancy_not_fatal_counterexample :
    ¬ (supervisorRetries
        (Except.error UpsertError.reentrancy : Except UpsertError Unit) =
          false) := by
  decide

/-- C7 as amended: a tick entered while the timing-window lock is held
fails immediately with the distinguishable reentrancy error and performs
no work (no state change, no dispatch, no event consumed), but the
supervisor treats it like any other tick failure and retries it after
the fixed cool-down rather than treating it as fatal. -/
theorem reentrancy_guard_retried (sample_size batch_size : Nat)
    (dry_run : Bool) (net : String → List Doc → Except Unit Unit)
    (tasks : List MeiliTask) (st : TickState) (es : List Event) :
    tryRunUpserts true sample_size batch_size dry_run net tasks st es =
        Except.error UpsertError.reentrancy
    ∧ supervisorRetries
        (tryRunUpserts true sample_size batch_size dry_run net tasks st es) =
        true
    ∧ UpsertError.reentrancy ≠ UpsertError.downstream := by
  exact ⟨rfl, rfl, by decide⟩

/-- Eligibility filter stated declaratively: the task succeeded, is a
document addition whose details carry an indexed-document count, and
that count reaches half the batch size. -/
def eligibleTask (batch_size : Nat) (t : MeiliTask) : Prop :=
  ∃ content, t = MeiliTask.succeeded content
    ∧ ∃ count, content.update_type =
        TaskType.documentAddition (some ⟨some count⟩)
      ∧ batch_size / 2 ≤ count

/-- C8: a task contributes a datapoint only if it succeeded, is of the
document-addition kind, and reports an indexed-document count at least
`batch_size / 2`; every other task is mapped to `none` by the filter, and
a filtered-out task anywhere in the list leaves the whole refresh result
unchanged (it is dropped, never an error). -/
theorem refresh_filtering (batch_size : Nat) :
    (∀ t dp, acceptTask batch_size t = some dp → eligibleTask batch_size t)
    ∧ (∀ t, ¬ eligibleTask batch_size t → acceptTask batch_size t = none)
    ∧ (∀ (set : TimingSet) (sample_size : Nat) (l1 l2 : List MeiliTask)
        (t : MeiliTask), acceptTask batch_size t = none →
          updateUpsertInterval (l1 ++ t :: l2) set sample_size batch_size =
            updateUpsertInterval (l1 ++ l2) set sample_size batch_size) := by
  have h1 : ∀ t dp, acceptTask batch_size t = some dp →
      eligibleTask batch_size t := by
    intro t dp h
    cases t with
    | succeeded content =>
      refine ⟨content, rfl, ?_⟩
      cases htype : content.update_type with
      | documentAddition details =>
        cases details with
        | some det =>
          cases det with
          | mk ic =>
            cases ic with
            | some count =>
              by_cases hcnt : batch_size / 2 ≤ count
              · exact ⟨count, rfl, hcnt⟩
              · simp [acceptTask, htype, hcnt] at h
            | none => simp [acceptTask, htype] at h
        | none => simp [acceptTask, htype] at h
      | otherKind => simp [acceptTask, htype] at h
    | failed content => simp [acceptTask] at h
    | enqueued => simp [acceptTask] at h
    | processing => simp [acceptTask] at h
  refine ⟨h1, ?_, ?_⟩
  · intro t h
    cases hacc : acceptTask batch_size t with
    | none => rfl
    | some dp => exact absurd (h1 t dp hacc) h
  · intro set sample_size l1 l2 t ht
    unfold updateUpsertInterval
    rw [List.filterMap_append, List.filterMap_append,
      List.filterMap_cons_none ht]

/-- A task passing every filter condition: succeeded document addition
with 7 indexed documents, finishing at nanosecond instant 5. -/
def goodTask : MeiliTask :=
  MeiliTask.succeeded ⟨1000, 5, TaskType.documentAddition (some ⟨some 7⟩)⟩

/-- Witness for C8 at a concrete input: batch size 4 and a successful
addition of 7 documents. -/
theorem refresh_filtering_witness : eligibleTask 4 goodTask :=
  (refresh_filtering 4).1 goodTask ⟨5, 1000⟩ (by decide)

/-- The queue after `upsert_documents`, needed by the grouping claim:
documents are appended in argument order, each paired with the index
name. -/
theorem upsert_documents_queue (st : ClientState) (idx : String)
    (docs : List Doc) :
    (upsert_documents st idx docs).1.upsert_queue =
      st.upsert_queue ++ docs.map (fun d => (idx, d)) := by
  unfold upsert_documents
  by_cases hb : st.upsert_batch ≤
      (st.upsert_queue ++ docs.map (fun d => (idx, d))).length
  · rw [if_pos hb]
    rcases htr : trySend st.trigger_upsert with ⟨t2, r⟩
    cases r with
    | none => simp [htr]
    | some f => cases f <;> simp [htr]
  · rw [if_neg hb]

/-- C9: for every drained queue, the dispatch map holds, under each index
name, exactly the documents enqueued for that index in this tick, in
drained FIFO order (the filter of the queue by that index name); and
enqueueing pushes documents in argument order, so the relative order of
two same-index documents equals their queue order. -/
theorem per_index_grouping (q : List (String × Doc)) (idx : String)
    (st : ClientState) (i2 : String) (ds : List Doc) :
    groupLookup (groupByIndex q) idx =
        (q.filter (fun p => p.1 == idx)).map Prod.snd
    ∧ (upsert_documents st i2 ds).1.upsert_queue =
        st.upsert_queue ++ ds.map (fun d => (i2, d)) :=
  ⟨groupLookup_groupByIndex q idx, upsert_documents_queue st i2 ds⟩

/-- C10: if the index exists but reports no primary key, the bootstrap
fails with the primary-key-mismatch error and never takes the creation
branch (the embedding has no set-key operation at all); and any
`get_index` error — not only not-found — sends the bootstrap into the
creation branch. -/
theorem index_bootstrap_check (env : BootstrapEnv) (pk : String) :
    (∀ idx, env.get_index = Except.ok idx →
        idx.primary_key_result = Except.ok none →
          create_index env pk =
            (Except.error BootstrapError.primaryKeyMismatch, false))
    ∧ (∀ e, env.get_index = Except.error e →
        (create_index env pk).2 = true) := by
  constructor
  · intro idx h1 h2
    simp [create_index, h1, h2]
  · intro e h1
    cases hc : env.create_result <;> simp [create_index, h1, hc]

/-- A bootstrap environment where the index exists but has no primary
key. -/
def bootstrapEnvNoKey : BootstrapEnv :=
  ⟨Except.ok ⟨Except.ok none⟩, Except.ok ()⟩

/-- Witness for C10 at a concrete input: existing index, no primary key,
expected key "id". -/
theorem index_bootstrap_check_witness :
    create_index bootstrapEnvNoKey "id" =
      (Except.error BootstrapError.primaryKeyMismatch, false) :=
  (index_bootstrap_check bootstrapEnvNoKey "id").1 ⟨Except.ok none⟩ rfl rfl

end Indexer
